import Mathlib

/-!
Verification of the resume chat relay backend (Go) against its
natural-language specification.  Byte strings are modelled as `List Nat`
(each element one byte, or one rune where the source works on runes).
Fallible Go code is modelled with `Option`/`Except`; a Go slice expression
that could panic is modelled by a checked `slice` returning `none` on an
out-of-range access, so "never panics" is `isSome` of the result.
-/

namespace ResumeRelay

/-- Byte strings (WAV containers, PCM payloads) as lists of naturals. -/
abbrev Bytes := List Nat

/-- Checked Go slice `w[a:b]`: `none` models the out-of-range panic. -/
def slice (w : Bytes) (a b : Nat) : Option Bytes :=
  if a ≤ b ∧ b ≤ w.length then some ((w.drop a).take (b - a)) else none

/-- binary.LittleEndian.Uint32 of a 4-byte slice. -/
def leU32 (bs : Bytes) : Nat :=
  bs.getD 0 0 + bs.getD 1 0 * 256 + bs.getD 2 0 * 65536 + bs.getD 3 0 * 16777216

/-- binary.LittleEndian.Uint16 of a 2-byte slice. -/
def leU16 (bs : Bytes) : Nat :=
  bs.getD 0 0 + bs.getD 1 0 * 256

/-- ASCII bytes of "RIFF". -/
def riffMagic : Bytes := [82, 73, 70, 70]

/-- ASCII bytes of "WAVE". -/
def waveMagic : Bytes := [87, 65, 86, 69]

/-- ASCII bytes of "fmt " (with trailing space). -/
def fmtMagic : Bytes := [102, 109, 116, 32]

/-- ASCII bytes of "data". -/
def dataMagic : Bytes := [100, 97, 116, 97]

/-- The "fmt " chunk scan of convertWAVToPCM16 (local pipeline handler,
lines 286-302): Go loop `for i := 12; i < len(wavData)-20; i++` looking for
the chunk tag; on a tag hit it validates `fmtDataOffset+16 <= len` and
`fmtChunkSize >= 16`, then reads the sample rate and bits per sample;
otherwise it keeps scanning.  Result: `some (some (rate, bits))` on
success, `some none` when the chunk is not found, `none` for an
out-of-range access. -/
def findFmt (w : Bytes) (i : Nat) : Option (Option (Nat × Nat)) :=
  if _h : i + 20 < w.length then
    match slice w i (i + 4) with
    | none => none
    | some tag =>
      if tag = fmtMagic then
        match slice w (i + 4) (i + 8) with
        | none => none
        | some szb =>
          if i + 8 + 16 ≤ w.length ∧ 16 ≤ leU32 szb then
            match slice w (i + 8 + 4) (i + 8 + 8), slice w (i + 8 + 14) (i + 8 + 16) with
            | some srb, some bpb => some (some (leU32 srb, leU16 bpb))
            | _, _ => none
          else findFmt w (i + 1)
      else findFmt w (i + 1)
  else some none
termination_by w.length - i
decreasing_by omega

/-- The "data" chunk scan of convertWAVToPCM16 (lines 311-328): Go loop
`for i := 12; i < len(wavData)-8; i++`; on a tag hit, a declared chunk size
that is positive and fits in the remaining buffer selects exactly that many
payload bytes, otherwise the code falls back to all remaining bytes. -/
def findData (w : Bytes) (i : Nat) : Option (Option Bytes) :=
  if _h : i + 8 < w.length then
    match slice w i (i + 4) with
    | none => none
    | some tag =>
      if tag = dataMagic then
        match slice w (i + 4) (i + 8) with
        | none => none
        | some szb =>
          if 0 < leU32 szb ∧ leU32 szb ≤ w.length - (i + 8) then
            match slice w (i + 8) (i + 8 + leU32 szb) with
            | none => none
            | some pcm => some (some pcm)
          else
            match slice w (i + 8) w.length with
            | none => none
            | some rest => some (some rest)
      else findData w (i + 1)
  else some none
termination_by w.length - i
decreasing_by omega

/-- Graceful error results of convertWAVToPCM16. -/
inductive WavError
  | tooSmall
  | noRiff
  | noWave
  | noFmt
  | noData
  | badBits
deriving DecidableEq

/-- convertWAVToPCM16 (local pipeline handler, lines 261-345): header
validation, "fmt " scan, "data" scan, bits-per-sample check.  `none`
models a Go slice panic; `some (.error e)` the returned Go error;
`some (.ok pcm)` the extracted payload.  The sample rate only feeds a log
warning in the source and is therefore not inspected here. -/
def convertWAVToPCM16 (wavData : Bytes) : Option (Except WavError Bytes) :=
  if wavData.length < 12 then some (.error .tooSmall) else
  match slice wavData 0 4 with
  | none => none
  | some r =>
    if r ≠ riffMagic then some (.error .noRiff) else
    match slice wavData 8 12 with
    | none => none
    | some wv =>
      if wv ≠ waveMagic then some (.error .noWave) else
      match findFmt wavData 12 with
      | none => none
      | some none => some (.error .noFmt)
      | some (some (_rate, bitsPerSample)) =>
        match findData wavData 12 with
        | none => none
        | some none => some (.error .noData)
        | some (some pcm) =>
          if bitsPerSample ≠ 16 then some (.error .badBits)
          else some (.ok pcm)

theorem slice_eq_of_le (w : Bytes) (a b : Nat) (h1 : a ≤ b) (h2 : b ≤ w.length) :
    slice w a b = some ((w.drop a).take (b - a)) := by
  simp [slice, h1, h2]

theorem slice_isSome (w : Bytes) (a b : Nat) (h1 : a ≤ b) (h2 : b ≤ w.length) :
    (slice w a b).isSome := by
  rw [slice_eq_of_le w a b h1 h2]; rfl

theorem findFmt_ne_none (w : Bytes) (i : Nat) : findFmt w i ≠ none := by
  generalize hk : w.length - i = k
  induction k generalizing i with
  | zero =>
    rw [findFmt]
    have : ¬ i + 20 < w.length := by omega
    simp [this]
  | succ k ih =>
    rw [findFmt]
    by_cases hg : i + 20 < w.length
    · rw [dif_pos hg,
        slice_eq_of_le w i (i + 4) (by omega) (by omega),
        slice_eq_of_le w (i + 4) (i + 8) (by omega) (by omega)]
      have e1 : i + 4 - i = 4 := by omega
      have e2 : i + 8 - (i + 4) = 4 := by omega
      rw [e1, e2]
      dsimp only
      by_cases htag : List.take 4 (List.drop i w) = fmtMagic
      · rw [if_pos htag]
        by_cases hval : i + 8 + 16 ≤ w.length ∧ 16 ≤ leU32 (List.take 4 (List.drop (i + 4) w))
        · rw [slice_eq_of_le w (i + 8 + 4) (i + 8 + 8) (by omega) (by omega),
            slice_eq_of_le w (i + 8 + 14) (i + 8 + 16) (by omega) (by omega),
            if_pos hval]
          simp
        · rw [if_neg hval]
          exact ih (i + 1) (by omega)
      · rw [if_neg htag]
        exact ih (i + 1) (by omega)
    · simp [hg]

theorem findData_ne_none (w : Bytes) (i : Nat) : findData w i ≠ none := by
  generalize hk : w.length - i = k
  induction k generalizing i with
  | zero =>
    rw [findData]
    have : ¬ i + 8 < w.length := by omega
    simp [this]
  | succ k ih =>
    rw [findData]
    by_cases hg : i + 8 < w.length
    · rw [dif_pos hg,
        slice_eq_of_le w i (i + 4) (by omega) (by omega),
        slice_eq_of_le w (i + 4) (i + 8) (by omega) (by omega)]
      have e1 : i + 4 - i = 4 := by omega
      have e2 : i + 8 - (i + 4) = 4 := by omega
      rw [e1, e2]
      dsimp only
      by_cases htag : List.take 4 (List.drop i w) = dataMagic
      · rw [if_pos htag]
        by_cases hsz : 0 < leU32 (List.take 4 (List.drop (i + 4) w)) ∧
            leU32 (List.take 4 (List.drop (i + 4) w)) ≤ w.length - (i + 8)
        · rw [slice_eq_of_le w (i + 8) (i + 8 + leU32 (List.take 4 (List.drop (i + 4) w)))
            (by omega) (by omega), if_pos hsz]
          simp
        · rw [slice_eq_of_le w (i + 8) w.length (by omega) (le_refl _), if_neg hsz]
          simp
      · rw [if_neg htag]
        exact ih (i + 1) (by omega)
    · simp [hg]

/-- Suffix reformulation of `findData`: scanning `w` from index `i` is
scanning the suffix `w.drop i` (proof infrastructure, shown equivalent in
`findData_eq_findDataS`). -/
def findDataS : Bytes → Option (Option Bytes)
  | [] => some none
  | a :: s =>
    if 8 < (a :: s).length then
      if List.take 4 (a :: s) = dataMagic then
        if 0 < leU32 (List.take 4 (List.drop 4 (a :: s))) ∧
            leU32 (List.take 4 (List.drop 4 (a :: s))) ≤ (a :: s).length - 8 then
          some (some (List.take (leU32 (List.take 4 (List.drop 4 (a :: s))))
            (List.drop 8 (a :: s))))
        else some (some (List.drop 8 (a :: s)))
      else findDataS s
    else some none

theorem findData_eq_findDataS (w : Bytes) (i : Nat) :
    findData w i = findDataS (List.drop i w) := by
  generalize hk : w.length - i = k
  induction k generalizing i with
  | zero =>
    have hge : w.length ≤ i := by omega
    rw [List.drop_eq_nil_of_le hge, findData]
    have h : ¬ i + 8 < w.length := by omega
    simp [h, findDataS]
  | succ k ih =>
    by_cases hg : i + 8 < w.length
    · obtain ⟨a, s, hd⟩ : ∃ a s, List.drop i w = a :: s := by
        cases hcons : List.drop i w with
        | nil =>
          have hl := List.length_drop i w
          rw [hcons] at hl
          simp at hl
          omega
        | cons a s => exact ⟨a, s, rfl⟩
      have hlen : (a :: s).length = w.length - i := by rw [← hd, List.length_drop]
      have hd4 : List.drop 4 (a :: s) = List.drop (i + 4) w := by
        rw [← hd, List.drop_drop, Nat.add_comm]
      have hd8 : List.drop 8 (a :: s) = List.drop (i + 8) w := by
        rw [← hd, List.drop_drop, Nat.add_comm]
      have htail : s = List.drop (i + 1) w := by
        have h1 : List.drop 1 (a :: s) = List.drop (i + 1) w := by
          rw [← hd, List.drop_drop, Nat.add_comm]
        simpa using h1
      rw [findData, dif_pos hg,
        slice_eq_of_le w i (i + 4) (by omega) (by omega),
        slice_eq_of_le w (i + 4) (i + 8) (by omega) (by omega)]
      have e1 : i + 4 - i = 4 := by omega
      have e2 : i + 8 - (i + 4) = 4 := by omega
      rw [e1, e2]
      dsimp only
      rw [hd, findDataS, if_pos (show 8 < (a :: s).length by omega), hd4,
        show (a :: s).length - 8 = w.length - (i + 8) by omega, hd8]
      by_cases htag : List.take 4 (a :: s) = dataMagic
      · rw [if_pos htag, if_pos htag]
        by_cases hsz : 0 < leU32 (List.take 4 (List.drop (i + 4) w)) ∧
            leU32 (List.take 4 (List.drop (i + 4) w)) ≤ w.length - (i + 8)
        · rw [if_pos hsz, if_pos hsz,
            slice_eq_of_le w (i + 8) (i + 8 + leU32 (List.take 4 (List.drop (i + 4) w)))
              (by omega) (by omega)]
          have e3 : i + 8 + leU32 (List.take 4 (List.drop (i + 4) w)) - (i + 8) =
              leU32 (List.take 4 (List.drop (i + 4) w)) := by omega
          rw [e3]
        · rw [if_neg hsz, if_neg hsz,
            slice_eq_of_le w (i + 8) w.length (by omega) (le_refl _)]
          have hdl : w.length - (i + 8) = (List.drop (i + 8) w).length :=
            (List.length_drop _ _).symm
          rw [hdl, List.take_length]
      · rw [if_neg htag, if_neg htag, htail, ih (i + 1) (by omega)]
    · rw [findData, dif_neg hg]
      cases hcons : List.drop i w with
      | nil => rw [findDataS]
      | cons a s =>
        have hlen : (a :: s).length = w.length - i := by rw [← hcons, List.length_drop]
        rw [findDataS, if_neg (show ¬ 8 < (a :: s).length by omega)]

theorem convertWAVToPCM16_isSome (wavData : Bytes) : (convertWAVToPCM16 wavData).isSome := by
  unfold convertWAVToPCM16
  by_cases hlen : wavData.length < 12
  · simp [hlen]
  · rw [if_neg hlen,
      slice_eq_of_le wavData 0 4 (by omega) (by omega),
      slice_eq_of_le wavData 8 12 (by omega) (by omega)]
    dsimp only
    by_cases hr : List.take (4 - 0) (List.drop 0 wavData) = riffMagic
    · rw [if_neg (by simpa using hr)]
      by_cases hw : List.take (12 - 8) (List.drop 8 wavData) = waveMagic
      · rw [if_neg (by simpa using hw)]
        rcases hff : findFmt wavData 12 with _ | _ | ⟨rate, bits⟩
        · exact absurd hff (findFmt_ne_none _ _)
        · rfl
        · dsimp only
          rcases hfd : findData wavData 12 with _ | _ | pcm
          · exact absurd hfd (findData_ne_none _ _)
          · rfl
          · dsimp only
            split <;> rfl
      · rw [if_pos hw]
        rfl
    · rw [if_pos hr]
      rfl

theorem findData_oversize (w : Bytes) (i : Nat) (hg : i + 8 < w.length)
    (htag : List.take 4 (List.drop i w) = dataMagic)
    (hover : w.length - (i + 8) < leU32 (List.take 4 (List.drop (i + 4) w))) :
    findData w i = some (some (List.drop (i + 8) w)) := by
  rw [findData, dif_pos hg,
    slice_eq_of_le w i (i + 4) (by omega) (by omega),
    slice_eq_of_le w (i + 4) (i + 8) (by omega) (by omega)]
  have e1 : i + 4 - i = 4 := by omega
  have e2 : i + 8 - (i + 4) = 4 := by omega
  rw [e1, e2]
  dsimp only
  rw [if_pos htag, if_neg (by omega),
    slice_eq_of_le w (i + 8) w.length (by omega) (le_refl _)]
  have hdl : w.length - (i + 8) = (List.drop (i + 8) w).length :=
    (List.length_drop _ _).symm
  rw [hdl, List.take_length]

/-- C2: for every input byte string — including inputs whose declared `data`
chunk size exceeds the bytes remaining in the buffer — convertWAVToPCM16
never reads past the end of the input and never panics (every modelled
slice access stays in bounds, so the result is never the panic marker
`none`), and a located `data` chunk whose declared size is larger than the
remaining buffer falls back to taking all remaining bytes. -/
theorem convertWAVToPCM16_safety (wavData : Bytes) :
    (convertWAVToPCM16 wavData).isSome ∧
    ∀ i, i + 8 < wavData.length →
      List.take 4 (List.drop i wavData) = dataMagic →
      wavData.length - (i + 8) < leU32 (List.take 4 (List.drop (i + 4) wavData)) →
      findData wavData i = some (some (List.drop (i + 8) wavData)) :=
  ⟨convertWAVToPCM16_isSome wavData,
    fun i h1 h2 h3 => findData_oversize wavData i h1 h2 h3⟩

/-- A 47-byte WAV whose `data` chunk declares 999 payload bytes while only 3
remain in the buffer. -/
def truncWav : Bytes :=
  riffMagic ++ [100, 0, 0, 0] ++ waveMagic ++ fmtMagic ++ [16, 0, 0, 0] ++
    [1, 0, 1, 0] ++ [192, 93, 0, 0] ++ [128, 187, 0, 0] ++ [2, 0, 16, 0] ++
    dataMagic ++ [231, 3, 0, 0] ++ [5, 6, 7]

/-- Witness for C2 at a concrete truncated WAV: conversion does not panic and
the oversized declared chunk size (999 > 3 remaining) falls back to the 3
remaining bytes. -/
theorem convertWAVToPCM16_safety_witness :
    (convertWAVToPCM16 truncWav).isSome ∧ findData truncWav 36 = some (some [5, 6, 7]) := by
  refine ⟨(convertWAVToPCM16_safety truncWav).1, ?_⟩
  rw [(convertWAVToPCM16_safety truncWav).2 36 (by decide) (by decide) (by decide)]
  decide

/-- Little-endian 4-byte encoding, for building synthetic WAV containers. -/
def le32 (n : Nat) : Bytes := [n % 256, n / 256 % 256, n / 65536 % 256, n / 16777216 % 256]

/-- Canonical well-formed mono 16-bit 24 kHz WAV container around a PCM
payload: 12-byte RIFF/WAVE header, a 16-byte "fmt " chunk (PCM format,
1 channel, 24000 Hz, 16 bits per sample), then a "data" chunk whose
declared size equals the payload length. -/
def mkWav (pcm : Bytes) : Bytes :=
  riffMagic ++ le32 (36 + pcm.length) ++ waveMagic ++
    fmtMagic ++ le32 16 ++ [1, 0] ++ [1, 0] ++ le32 24000 ++ le32 48000 ++
    [2, 0] ++ [16, 0] ++ dataMagic ++ le32 pcm.length ++ pcm

theorem le32_leU32 (n : Nat) (h : n < 4294967296) : leU32 (le32 n) = n := by
  simp only [le32, leU32, List.getD_cons_zero, List.getD_cons_succ]
  omega

theorem mkWav_length (pcm : Bytes) : (mkWav pcm).length = 44 + pcm.length := by
  simp only [mkWav, le32, riffMagic, waveMagic, fmtMagic, dataMagic,
    List.length_append, List.length_cons, List.length_nil]

theorem mkWav_drop12 (pcm : Bytes) :
    List.drop 12 (mkWav pcm) =
      102 :: 109 :: 116 :: 32 :: 16 :: 0 :: 0 :: 0 :: 1 :: 0 :: 1 :: 0 ::
      192 :: 93 :: 0 :: 0 :: 128 :: 187 :: 0 :: 0 :: 2 :: 0 :: 16 :: 0 ::
      100 :: 97 :: 116 :: 97 :: (le32 pcm.length ++ pcm) := rfl

theorem findDataS_skip (a b c d : Nat) (s : Bytes)
    (h8 : 8 < (a :: b :: c :: d :: s).length)
    (hne : ¬ [a, b, c, d] = dataMagic) :
    findDataS (a :: b :: c :: d :: s) = findDataS (b :: c :: d :: s) := by
  rw [findDataS]
  have ht : List.take 4 (a :: b :: c :: d :: s) = [a, b, c, d] := rfl
  rw [ht, if_pos h8, if_neg hne]

theorem findFmt_mkWav (pcm : Bytes) : findFmt (mkWav pcm) 12 = some (some (24000, 16)) := by
  have hlen := mkWav_length pcm
  rw [findFmt, dif_pos (by omega),
    slice_eq_of_le _ 12 (12 + 4) (by omega) (by omega),
    slice_eq_of_le _ (12 + 4) (12 + 8) (by omega) (by omega)]
  dsimp only
  have h1 : List.take (12 + 4 - 12) (List.drop 12 (mkWav pcm)) = fmtMagic := by
    rw [mkWav_drop12]; rfl
  have h2 : List.take (12 + 8 - (12 + 4)) (List.drop (12 + 4) (mkWav pcm)) = [16, 0, 0, 0] := by
    have : List.drop (12 + 4) (mkWav pcm) = List.drop 4 (List.drop 12 (mkWav pcm)) := by
      rw [List.drop_drop]
    rw [this, mkWav_drop12]; rfl
  rw [h1, if_pos rfl, h2, if_pos ⟨by omega, by decide⟩,
    slice_eq_of_le _ (12 + 8 + 4) (12 + 8 + 8) (by omega) (by omega),
    slice_eq_of_le _ (12 + 8 + 14) (12 + 8 + 16) (by omega) (by omega)]
  have h3 : List.take (12 + 8 + 8 - (12 + 8 + 4)) (List.drop (12 + 8 + 4) (mkWav pcm)) =
      [192, 93, 0, 0] := by
    have : List.drop (12 + 8 + 4) (mkWav pcm) = List.drop 12 (List.drop 12 (mkWav pcm)) := by
      rw [List.drop_drop]
    rw [this, mkWav_drop12]; rfl
  have h4 : List.take (12 + 8 + 16 - (12 + 8 + 14)) (List.drop (12 + 8 + 14) (mkWav pcm)) =
      [16, 0] := by
    have : List.drop (12 + 8 + 14) (mkWav pcm) = List.drop 22 (List.drop 12 (mkWav pcm)) := by
      rw [List.drop_drop]
    rw [this, mkWav_drop12]; rfl
  rw [h3, h4]
  rfl

theorem findDataS_mkWav_tail (pcm : Bytes) (hpos : 0 < pcm.length)
    (hlt : pcm.length < 4294967296) :
    findDataS (100 :: 97 :: 116 :: 97 :: (le32 pcm.length ++ pcm)) = some (some pcm) := by
  have ht : List.take 4 (100 :: 97 :: 116 :: 97 :: (le32 pcm.length ++ pcm)) = dataMagic := rfl
  have hsz : List.take 4 (List.drop 4 (100 :: 97 :: 116 :: 97 :: (le32 pcm.length ++ pcm))) =
      le32 pcm.length := rfl
  have hdrop8 : List.drop 8 (100 :: 97 :: 116 :: 97 :: (le32 pcm.length ++ pcm)) = pcm := rfl
  have hlen : (100 :: 97 :: 116 :: 97 :: (le32 pcm.length ++ pcm)).length = 8 + pcm.length := by
    simp [le32]; omega
  rw [findDataS, ht, hsz, le32_leU32 _ hlt, hdrop8,
    if_pos (show 8 < (100 :: 97 :: 116 :: 97 :: (le32 pcm.length ++ pcm)).length by
      rw [hlen]; omega),
    if_pos rfl,
    if_pos ⟨hpos, show pcm.length ≤ (100 :: 97 :: 116 :: 97 ::
      (le32 pcm.length ++ pcm)).length - 8 by rw [hlen]; omega⟩,
    List.take_length]

/-- C3 (amended): for every canonical well-formed 24 kHz 16-bit mono WAV with
a nonempty payload (the 4-byte size field forces the payload length below
2^32), convertWAVToPCM16 returns exactly the data chunk payload unchanged.
The nonemptiness hypothesis is forced by the counterexample
`convertWAVToPCM16_empty_payload_counterexample`. -/
theorem convertWAVToPCM16_roundtrip (pcm : Bytes) (hpos : 0 < pcm.length)
    (hlt : pcm.length < 4294967296) :
    convertWAVToPCM16 (mkWav pcm) = some (.ok pcm) := by
  have hlen := mkWav_length pcm
  unfold convertWAVToPCM16
  rw [if_neg (by omega),
    slice_eq_of_le _ 0 4 (by omega) (by omega),
    slice_eq_of_le _ 8 12 (by omega) (by omega)]
  dsimp only
  have hr : List.take (4 - 0) (List.drop 0 (mkWav pcm)) = riffMagic := rfl
  have hw : List.take (12 - 8) (List.drop 8 (mkWav pcm)) = waveMagic := rfl
  rw [hr, if_neg (by simp), hw, if_neg (by simp), findFmt_mkWav]
  dsimp only
  rw [findData_eq_findDataS, mkWav_drop12]
  rw [findDataS_skip _ _ _ _ _
    (by simp only [List.length_cons, List.length_append, le32]; omega) (by decide)]
  rw [findDataS_skip _ _ _ _ _
    (by simp only [List.length_cons, List.length_append, le32]; omega) (by decide)]
  rw [findDataS_skip _ _ _ _ _
    (by simp only [List.length_cons, List.length_append, le32]; omega) (by decide)]
  rw [findDataS_skip _ _ _ _ _
    (by simp only [List.length_cons, List.length_append, le32]; omega) (by decide)]
  rw [findDataS_skip _ _ _ _ _
    (by simp only [List.length_cons, List.length_append, le32]; omega) (by decide)]
  rw [findDataS_skip _ _ _ _ _
    (by simp only [List.length_cons, List.length_append, le32]; omega) (by decide)]
  rw [findDataS_skip _ _ _ _ _
    (by simp only [List.length_cons, List.length_append, le32]; omega) (by decide)]
  rw [findDataS_skip _ _ _ _ _
    (by simp only [List.length_cons, List.length_append, le32]; omega) (by decide)]
  rw [findDataS_skip _ _ _ _ _
    (by simp only [List.length_cons, List.length_append, le32]; omega) (by decide)]
  rw [findDataS_skip _ _ _ _ _
    (by simp only [List.length_cons, List.length_append, le32]; omega) (by decide)]
  rw [findDataS_skip _ _ _ _ _
    (by simp only [List.length_cons, List.length_append, le32]; omega) (by decide)]
  rw [findDataS_skip _ _ _ _ _
    (by simp only [List.length_cons, List.length_append, le32]; omega) (by decide)]
  rw [findDataS_skip _ _ _ _ _
    (by simp only [List.length_cons, List.length_append, le32]; omega) (by decide)]
  rw [findDataS_skip _ _ _ _ _
    (by simp only [List.length_cons, List.length_append, le32]; omega) (by decide)]
  rw [findDataS_skip _ _ _ _ _
    (by simp only [List.length_cons, List.length_append, le32]; omega) (by decide)]
  rw [findDataS_skip _ _ _ _ _
    (by simp only [List.length_cons, List.length_append, le32]; omega) (by decide)]
  rw [findDataS_skip _ _ _ _ _
    (by simp only [List.length_cons, List.length_append, le32]; omega) (by decide)]
  rw [findDataS_skip _ _ _ _ _
    (by simp only [List.length_cons, List.length_append, le32]; omega) (by decide)]
  rw [findDataS_skip _ _ _ _ _
    (by simp only [List.length_cons, List.length_append, le32]; omega) (by decide)]
  rw [findDataS_skip _ _ _ _ _
    (by simp only [List.length_cons, List.length_append, le32]; omega) (by decide)]
  rw [findDataS_skip _ _ _ _ _
    (by simp only [List.length_cons, List.length_append, le32]; omega) (by decide)]
  rw [findDataS_skip _ _ _ _ _
    (by simp only [List.length_cons, List.length_append, le32]; omega) (by decide)]
  rw [findDataS_skip _ _ _ _ _
    (by simp only [List.length_cons, List.length_append, le32]; omega) (by decide)]
  rw [findDataS_skip _ _ _ _ _
    (by simp only [List.length_cons, List.length_append, le32]; omega) (by decide)]
  rw [findDataS_mkWav_tail pcm hpos hlt]
  simp

/-- C3 counterexample: the canonical well-formed WAV whose data chunk has an
empty payload (declared size 0, total length 44).  The data scan loop bound
`i < len(wavData)-8` stops at i = 35, before the "data" tag at offset 36,
so the code returns a "data chunk not found" error instead of the empty
payload. -/
theorem convertWAVToPCM16_empty_payload_counterexample :
    convertWAVToPCM16 (mkWav []) = some (.error WavError.noData) := by
  have hlen := mkWav_length []
  unfold convertWAVToPCM16
  rw [if_neg (by omega),
    slice_eq_of_le _ 0 4 (by omega) (by omega),
    slice_eq_of_le _ 8 12 (by omega) (by omega)]
  dsimp only
  have hr : List.take (4 - 0) (List.drop 0 (mkWav [])) = riffMagic := rfl
  have hw : List.take (12 - 8) (List.drop 8 (mkWav [])) = waveMagic := rfl
  rw [hr, if_neg (by simp), hw, if_neg (by simp), findFmt_mkWav,
    findData_eq_findDataS, mkWav_drop12]
  rfl

/-- Witness for C3 at the concrete payload [7, 8]. -/
theorem convertWAVToPCM16_roundtrip_witness :
    convertWAVToPCM16 (mkWav [7, 8]) = some (.ok [7, 8]) :=
  convertWAVToPCM16_roundtrip [7, 8] (by decide) (by decide)

/-- Registered JWT claims (auth.go JWTClaims wraps jwt.RegisteredClaims);
the default value models the zero value `&JWTClaims` — empty claims. -/
structure JWTClaims where
  expiresAt : Option Nat := none
  issuedAt : Option Nat := none
deriving DecidableEq

/-- VerifyJWT (auth.go lines 192-212).  When no JWT secret is configured,
the function logs a warning and returns empty claims without looking at the
token; otherwise the vendor JWT library parse-and-validate step runs,
abstracted here as the `parseWithClaims` argument. -/
def VerifyJWT (parseWithClaims : String → Except String JWTClaims)
    (jwtSecret : Bytes) (tokenString : String) : Except String JWTClaims :=
  if jwtSecret.length = 0 then .ok {} else parseWithClaims tokenString

/-- Bearer-token extraction at WebSocket upgrade (chat.go lines 110-120):
the Authorization header when it carries a "Bearer "-prefixed value,
falling back to the Sec-WebSocket-Protocol header. -/
def extractToken (authHeader wsProtocol : String) : String :=
  if authHeader ≠ "" ∧ 7 < authHeader.length ∧ authHeader.take 7 = "Bearer "
  then authHeader.drop 7 else wsProtocol

/-- The upgrade-time credential check (chat.go lines 122-133): the upgrade
is rejected with HTTP 401 iff VerifyJWT fails. -/
def wsAuthPasses (parseWithClaims : String → Except String JWTClaims)
    (jwtSecret : Bytes) (authHeader wsProtocol : String) : Bool :=
  match VerifyJWT parseWithClaims jwtSecret (extractToken authHeader wsProtocol) with
  | .ok _ => true
  | .error _ => false

/-- C1: when no JWT signing secret is configured (empty secret), VerifyJWT
succeeds with empty claims on every token string — malformed, unsigned or
expired alike — so every value presented at WebSocket upgrade passes
authentication in open mode. -/
theorem verifyJWT_open_mode :
    ∀ (parseWithClaims : String → Except String JWTClaims)
      (tokenString authHeader wsProtocol : String),
      VerifyJWT parseWithClaims [] tokenString = .ok {} ∧
      wsAuthPasses parseWithClaims [] authHeader wsProtocol = true :=
  fun _ _ _ _ => ⟨rfl, rfl⟩

/-- The process-wide per-IP connection registry (chat.go lines 36-39),
a count per source address; an absent map entry reads as 0. -/
def Registry := String → Nat

/-- Maximum concurrent connections per IP (chat.go line 30). -/
def MaxConnectionsPerIP : Nat := 10

/-- Admission increment (chat.go line 149). -/
def incIP (reg : Registry) (ip : String) : Registry :=
  fun x => if x = ip then reg x + 1 else reg x

/-- Deferred slot release (chat.go lines 153-161): decrement, deleting the
map entry when the count reaches zero (an absent entry reads as 0). -/
def decIP (reg : Registry) (ip : String) : Registry :=
  fun x => if x = ip then (if reg ip - 1 = 0 then 0 else reg ip - 1) else reg x

/-- Admission outcome (chat.go lines 138-150).  `rejected` carries the
unchanged registry: the HTTP 429 capacity error is returned before
`upgrader.Upgrade` is reached and before any increment. -/
inductive AdmissionResult
  | rejected (reg : Registry)
  | admitted (reg : Registry)

/-- Admission control under the registry mutex (chat.go lines 138-150). -/
def admitConnection (reg : Registry) (ip : String) : AdmissionResult :=
  if MaxConnectionsPerIP ≤ reg ip then .rejected reg
  else .admitted (incIP reg ip)

/-- C9: a connection attempt from a source IP already holding 10 concurrent
connections (the configured cap) is rejected with a capacity error before
the WebSocket upgrade, and the rejected attempt leaves the per-IP counter
untouched. -/
theorem admission_cap_reject (reg : Registry) (ip : String) (h : reg ip = 10) :
    MaxConnectionsPerIP = 10 ∧ admitConnection reg ip = .rejected reg := by
  refine ⟨rfl, ?_⟩
  unfold admitConnection
  rw [if_pos (show MaxConnectionsPerIP ≤ reg ip by rw [h]; decide)]

/-- Witness for C9 at a concrete registry holding exactly 10 slots. -/
theorem admission_cap_reject_witness :
    MaxConnectionsPerIP = 10 ∧
    admitConnection (fun _ => 10) "203.0.113.7" = .rejected (fun _ => 10) :=
  admission_cap_reject (fun _ => 10) "203.0.113.7" rfl

/-- Shutdown trigger sources for one session: normal browser close,
unrecoverable read error, keepalive write failure, panic recovery. -/
inductive ExitTrigger
  | browserClose
  | readError
  | keepaliveFail
  | panicRecovery
deriving DecidableEq

/-- sync.Once.Do on the done channel (chat.go lines 277, 292, 586): the
body — close(done) — runs iff the flag is not yet set.  sync.Once
serializes concurrent callers through an internal mutex, so any set of
concurrent triggers is observed as some sequence of Do calls. -/
def onceDo (fired : Bool) : Bool × Bool := (!fired, true)

/-- Number of times close(done) actually runs across a sequence of
shutdown triggers, each routed through doneOnce.Do. -/
def countFires : List ExitTrigger → Bool → Nat
  | [], _ => 0
  | _ :: ts, fired => (if (onceDo fired).1 then 1 else 0) + countFires ts (onceDo fired).2

/-- One session lifetime (chat.go HandleWebSocket): admission increments
the per-IP count once; the single deferred cleanup (lines 153-161) runs
exactly once when the handler returns, whatever the exit path (Go defer
also runs during panic unwinding); every shutdown trigger goes through
doneOnce.  Result: final registry and number of done-channel closes. -/
def sessionRun (reg : Registry) (ip : String) (triggers : List ExitTrigger) :
    Registry × Nat :=
  (decIP (incIP reg ip) ip, countFires triggers false)

/-- C4: on every exit path and for every nonempty set of shutdown triggers
(in any arrival order), the done signal fires exactly once and the per-IP
admission counter returns to its pre-connection value — decremented exactly
once relative to the post-admission count, never twice and never zero
times. -/
theorem admission_release_exactly_once (reg : Registry) (ip : String)
    (ts : List ExitTrigger) (hne : ts ≠ []) :
    (sessionRun reg ip ts).2 = 1 ∧ (sessionRun reg ip ts).1 = reg := by
  constructor
  · cases ts with
    | nil => exact absurd rfl hne
    | cons t ts =>
      have hz : ∀ l : List ExitTrigger, countFires l true = 0 := by
        intro l
        induction l with
        | nil => rfl
        | cons a l ih => simpa [countFires, onceDo] using ih
      simp [sessionRun, countFires, onceDo, hz]
  · funext x
    by_cases hx : x = ip
    · subst hx
      simp [sessionRun, decIP, incIP]
      intro h0
      omega
    · simp [sessionRun, decIP, incIP, hx]

/-- Witness for C4: two distinct concurrent-style triggers still yield one
done fire and restore the registry. -/
theorem admission_release_exactly_once_witness :
    (sessionRun (fun _ => 0) "198.51.100.1"
      [ExitTrigger.browserClose, ExitTrigger.keepaliveFail]).2 = 1 ∧
    (sessionRun (fun _ => 0) "198.51.100.1"
      [ExitTrigger.browserClose, ExitTrigger.keepaliveFail]).1 = (fun _ => 0) :=
  admission_release_exactly_once _ _ _ (by simp)

/-- Server-to-client frames (chat.go ServerMessage, discriminated by the
type field). -/
inductive SMsg
  | textDelta (text : String)
  | textDone
  | audioDelta (audio : String)
  | audioDone
  | responseDone
  | errorMsg (error : String)
deriving DecidableEq

/-- Frame discriminator: is this an error frame. -/
def isErrorFrame : SMsg → Bool
  | .errorMsg _ => true
  | _ => false

/-- Maximum characters per message (chat.go line 22). -/
def MaxMessageLength : Nat := 4000

/-- Minimum characters per message (chat.go line 23). -/
def MinMessageLength : Nat := 1

/-- unicode.IsSpace, as used by strings.TrimSpace: the Unicode White_Space
runes — tab through carriage return, space, next line (U+0085), no-break
space (U+00A0), ogham space mark (U+1680), the U+2000-U+200A spaces, line
and paragraph separators (U+2028, U+2029), narrow no-break space (U+202F),
medium mathematical space (U+205F) and ideographic space (U+3000). -/
def isGoSpace (r : Nat) : Bool :=
  r = 9 || r = 10 || r = 11 || r = 12 || r = 13 || r = 32 || r = 133 || r = 160 ||
  r = 5760 || (8192 ≤ r && r ≤ 8202) || r = 8232 || r = 8233 || r = 8239 ||
  r = 8287 || r = 12288

/-- strings.TrimSpace on a rune sequence. -/
def trimSpace (s : List Nat) : List Nat :=
  ((s.dropWhile isGoSpace).reverse.dropWhile isGoSpace).reverse

/-- The strings.Map pass of chat.go lines 462-467: remove control
characters (rune below 32) other than newline and tab. -/
def stripCtrl (s : List Nat) : List Nat :=
  s.filter (fun r => if r < 32 ∧ r ≠ 10 ∧ r ≠ 9 then false else true)

/-- Sanitization (chat.go lines 460-467): trim surrounding whitespace,
then strip control characters. -/
def sanitizeMessage (s : List Nat) : List Nat := stripCtrl (trimSpace s)

/-- UTF-8 byte width of a rune; Go `len` on a string counts bytes. -/
def utf8Len (r : Nat) : Nat :=
  if r < 128 then 1 else if r < 2048 then 2 else if r < 65536 then 3 else 4

/-- Go `len` of the UTF-8 encoding of a rune sequence. -/
def byteLen (s : List Nat) : Nat := (s.map utf8Len).sum

def rateLimitErrorText : String :=
  "Rate limit exceeded. Please wait before sending another message."

def lengthErrorText : String := "Message must be between 1 and 4000 characters"

def emptyErrorText : String := "Message cannot be empty"

/-- Handling of one frame of type "message" (chat.go lines 438-480) up to
the dispatch to the configured upstream.  `allowed` is the rate-limiter
verdict taken first; result components: frames emitted before dispatch,
the sanitized text handed to the dispatch stage (`none` = nothing is
forwarded upstream), and whether the read loop continues. -/
def handleMessageFrame (allowed : Bool) (message : List Nat) :
    List SMsg × Option (List Nat) × Bool :=
  if !allowed then ([.errorMsg rateLimitErrorText], none, true)
  else
    let messageLen := byteLen message
    if messageLen < MinMessageLength ∨ MaxMessageLength < messageLen then
      ([.errorMsg lengthErrorText], none, true)
    else
      let sanitized := sanitizeMessage message
      if byteLen sanitized < MinMessageLength then
        ([.errorMsg emptyErrorText], none, true)
      else ([], some sanitized, true)

theorem length_le_byteLen (s : List Nat) : s.length ≤ byteLen s := by
  induction s with
  | nil => simp [byteLen]
  | cons a s ih =>
    simp only [byteLen, List.map_cons, List.sum_cons, List.length_cons]
    simp only [byteLen] at ih
    have h1 : 1 ≤ utf8Len a := by
      unfold utf8Len
      repeat' split
      all_goals omega
    omega

/-- C6: a "message" frame whose text is empty, longer than 4000 characters,
or empties out under sanitization makes the session emit exactly one error
frame for that message, forward nothing upstream, and keep the loop (and
socket) alive. -/
theorem message_validation_errors (allowed : Bool) (message : List Nat)
    (h : message.length = 0 ∨ 4000 < message.length ∨ sanitizeMessage message = []) :
    (handleMessageFrame allowed message).1.length = 1 ∧
    ((handleMessageFrame allowed message).1.all isErrorFrame) = true ∧
    (handleMessageFrame allowed message).2.1 = none ∧
    (handleMessageFrame allowed message).2.2 = true := by
  cases allowed with
  | false => exact ⟨rfl, rfl, rfl, rfl⟩
  | true =>
    by_cases hb : byteLen message < MinMessageLength ∨ MaxMessageLength < byteLen message
    · simp [handleMessageFrame, hb, isErrorFrame]
    · have hsan : sanitizeMessage message = [] := by
        rcases h with h0 | h4000 | hs
        · exfalso
          apply hb
          left
          have hnil : message = [] := List.length_eq_zero.mp h0
          rw [hnil]
          decide
        · exfalso
          apply hb
          right
          have := length_le_byteLen message
          unfold MaxMessageLength
          omega
        · exact hs
      have hempty : byteLen (sanitizeMessage message) < MinMessageLength := by
        rw [hsan]
        decide
      simp [handleMessageFrame, hb, hempty, isErrorFrame]

/-- Witness for C6 at the concrete whitespace-only message " \t\n"
(runes 32, 9, 10), which sanitizes to empty, and at a lone EM SPACE
(U+2003, rune 8195), which strings.TrimSpace also empties. -/
theorem message_validation_errors_witness :
    ((handleMessageFrame true [32, 9, 10]).1.length = 1 ∧
    ((handleMessageFrame true [32, 9, 10]).1.all isErrorFrame) = true ∧
    (handleMessageFrame true [32, 9, 10]).2.1 = none ∧
    (handleMessageFrame true [32, 9, 10]).2.2 = true) ∧
    ((handleMessageFrame true [8195]).1.length = 1 ∧
    ((handleMessageFrame true [8195]).1.all isErrorFrame) = true ∧
    (handleMessageFrame true [8195]).2.1 = none ∧
    (handleMessageFrame true [8195]).2.2 = true) :=
  ⟨message_validation_errors true [32, 9, 10] (Or.inr (Or.inr (by decide))),
   message_validation_errors true [8195] (Or.inr (Or.inr (by decide)))⟩

/-- Refill interval of the per-connection limiter in seconds (chat.go
line 26: one message per 5 seconds). -/
def MessageRateLimitSeconds : Nat := 5

/-- Burst capacity of the per-connection limiter (chat.go line 27). -/
def MessageBurst : Nat := 3

/-- One Allow() call of the vendor token bucket, constructed at chat.go
line 186 as a limiter with rate one token per MessageRateLimitSeconds and
burst MessageBurst.  Modelled from the vendor contract (the limiter is the
golang.org/x/time/rate library, an external collaborator): `accrued` is
the fraction of a token accrued since the previous arrival (elapsed
seconds divided by MessageRateLimitSeconds); the balance is capped at the
burst; the call succeeds iff a full token is available, consuming it. -/
def bucketStep (tokens accrued : ℚ) : Bool × ℚ :=
  let t := min (MessageBurst : ℚ) (tokens + accrued)
  if 1 ≤ t then (true, t - 1) else (false, t)

/-- Allow() verdicts over a sequence of message arrivals given by their
inter-arrival token accruals. -/
def runBucket (tokens : ℚ) : List ℚ → List Bool
  | [] => []
  | d :: ds => (bucketStep tokens d).1 :: runBucket (bucketStep tokens d).2 ds

/-- The rate-limit gate for each "message" frame (chat.go lines 439-447):
an allowed message proceeds to the sanitize/forward stage with no frame
emitted at this gate; a denied one yields exactly one rate-limit error
frame and is dropped, not queued (the loop just continues).  Per message:
(frames emitted at the gate, whether the message reaches the
sanitize/forward stage). -/
def processMessageFrames (tokens : ℚ) (accr : List ℚ) : List (List SMsg × Bool) :=
  (runBucket tokens accr).map fun ok =>
    if ok then ([], true) else ([SMsg.errorMsg rateLimitErrorText], false)

theorem runBucket_deny (ds : List ℚ) : ∀ tok : ℚ, 0 ≤ tok →
    (∀ d ∈ ds, 0 ≤ d) → tok + ds.sum < 1 →
    runBucket tok ds = List.replicate ds.length false := by
  induction ds with
  | nil => intro tok _ _ _; rfl
  | cons d ds ih =>
    intro tok htok hall hsum
    have hd : 0 ≤ d := hall d (by simp)
    have hsum0 : 0 ≤ ds.sum := List.sum_nonneg fun x hx => hall x (by simp [hx])
    rw [List.sum_cons] at hsum
    have hB : (MessageBurst : ℚ) = 3 := by norm_num [MessageBurst]
    have hb : bucketStep tok d = (false, tok + d) := by
      unfold bucketStep
      rw [hB, min_eq_right (by linarith), if_neg (by push_neg; linarith)]
    rw [runBucket, hb]
    dsimp only
    rw [ih (tok + d) (by linarith) (fun x hx => hall x (by simp [hx])) (by linarith)]
    rfl

/-- C5: for a sequence of "message" frames all arriving within one refill
interval (the inter-arrival accruals after the first sum to less than one
token), exactly the first min(N, 3) of them reach the sanitize/forward
stage and each of the remaining N - 3 yields exactly one rate-limit error
frame and is dropped. -/
theorem rate_limit_burst (d0 : ℚ) (ds : List ℚ) (h0 : 0 ≤ d0)
    (hall : ∀ d ∈ ds, 0 ≤ d) (hsum : ds.sum < 1) :
    processMessageFrames 3 (d0 :: ds) =
      List.replicate (min (ds.length + 1) 3) ([], true) ++
      List.replicate (ds.length + 1 - 3) ([SMsg.errorMsg rateLimitErrorText], false) := by
  have hB : (MessageBurst : ℚ) = 3 := by norm_num [MessageBurst]
  have hb0 : bucketStep 3 d0 = (true, 2) := by
    unfold bucketStep
    rw [hB, min_eq_left (by linarith), if_pos (by norm_num)]
    norm_num
  have hbucket : runBucket 3 (d0 :: ds) =
      List.replicate (min (ds.length + 1) 3) true ++
      List.replicate (ds.length + 1 - 3) false := by
    cases ds with
    | nil =>
      rw [runBucket, hb0]
      simp [runBucket]
    | cons d1 ds1 =>
      have hd1 : 0 ≤ d1 := hall d1 (by simp)
      have hsum1 : 0 ≤ ds1.sum := List.sum_nonneg fun x hx => hall x (by simp [hx])
      rw [List.sum_cons] at hsum
      have hb1 : bucketStep 2 d1 = (true, 1 + d1) := by
        unfold bucketStep
        rw [hB, min_eq_right (by linarith), if_pos (by linarith)]
        have e : (2 : ℚ) + d1 - 1 = 1 + d1 := by ring
        rw [e]
      cases ds1 with
      | nil =>
        rw [runBucket, hb0]
        dsimp only
        rw [runBucket, hb1]
        simp [runBucket]
      | cons d2 ds2 =>
        have hd2 : 0 ≤ d2 := hall d2 (by simp)
        have hsum2 : 0 ≤ ds2.sum := List.sum_nonneg fun x hx => hall x (by simp [hx])
        rw [List.sum_cons] at hsum
        have hb2 : bucketStep (1 + d1) d2 = (true, d1 + d2) := by
          unfold bucketStep
          rw [hB, min_eq_right (by linarith), if_pos (by linarith)]
          have e : (1 : ℚ) + d1 + d2 - 1 = d1 + d2 := by ring
          rw [e]
        rw [runBucket, hb0]
        dsimp only
        rw [runBucket, hb1]
        dsimp only
        rw [runBucket, hb2]
        dsimp only
        rw [runBucket_deny ds2 (d1 + d2) (by linarith) (fun x hx => hall x (by simp [hx]))
          (by linarith)]
        simp only [List.length_cons]
        have hm : min (ds2.length + 1 + 1 + 1) 3 = 3 := by omega
        have hs : ds2.length + 1 + 1 + 1 - 3 = ds2.length := by omega
        rw [hm, hs]
        rfl
  unfold processMessageFrames
  rw [hbucket, List.map_append, List.map_replicate, List.map_replicate]
  simp

/-- Witness for C5: four messages in one refill interval — the first three
reach the sanitize/forward stage, the fourth gets exactly one rate-limit
error frame. -/
theorem rate_limit_burst_witness :
    processMessageFrames 3 [0, 0, 0, 0] =
      ([], true) :: ([], true) :: ([], true) ::
      [([SMsg.errorMsg rateLimitErrorText], false)] := by
  have h := rate_limit_burst 0 [0, 0, 0] (le_refl 0) (by norm_num) (by norm_num)
  simpa using h

/-- Events read from the OpenAI realtime connection (chat.go lines
357-417), mapped from the vendor SDK event types. -/
inductive RTEvent
  | transcriptDelta (delta : String)
  | transcriptDone
  | audioDelta (delta : String)
  | audioDoneEv
  | responseDoneEv
  | errorEvent
  | unrecognized
deriving DecidableEq

/-- Frames sent to the browser for one upstream event (the switch at
chat.go lines 357-417): the transcript-done event sends text_done and then
response_done immediately (lines 368-383); ErrorEvent is logged and
swallowed; unhandled event kinds are logged only. -/
def eventFrames : RTEvent → List SMsg
  | .transcriptDelta d => [.textDelta d]
  | .transcriptDone => [.textDone, .responseDone]
  | .audioDelta d => [.audioDelta d]
  | .audioDoneEv => [.audioDone]
  | .responseDoneEv => [.responseDone]
  | .errorEvent => []
  | .unrecognized => []

/-- Frames emitted by the reader pump over a sequence of upstream events. -/
def pumpFrames : List RTEvent → List SMsg
  | [] => []
  | e :: es => eventFrames e ++ pumpFrames es

/-- One iteration of the OpenAI reader goroutine (chat.go lines 328-419):
the state is the nullable connection handle guarded by realtimeConnMutex;
`readRes` is the result of conn.ReadMessage.  On a read error the handle
is closed and set to nil under the mutex, no frame is sent to the client,
and the reader exits; on an event, the frames of `eventFrames` are sent
and the reader keeps running. -/
def openAIReaderStep (conn : Option Nat) (readRes : Except Unit RTEvent) :
    Option Nat × List SMsg × Bool :=
  match conn with
  | none => (none, [], false)
  | some h =>
    match readRes with
    | .error _ => (none, [], false)
    | .ok e => (some h, eventFrames e, true)

/-- The lazy-connect step at the head of the "message" dispatch for the
realtime variant (chat.go lines 494-511): a nil handle triggers a fresh
connect-and-configure whose outcome is `connectResult`; a connect failure
emits one error frame and the loop continues; an existing handle is reused
with no connect attempt.  Result: handle afterwards, frames emitted,
whether a fresh connect was attempted. -/
def messageConnectStep (conn : Option Nat) (connectResult : Except Unit Nat) :
    Option Nat × List SMsg × Bool :=
  match conn with
  | none =>
    match connectResult with
    | .error _ => (none, [.errorMsg "Failed to connect to AI service"], true)
    | .ok h => (some h, [], true)
  | some h => (some h, [], false)

/-- C8: in the realtime variant, a mid-stream upstream read failure sends
no error frame to the client and clears the handle to nil under the
connection mutex; the next user message observes the nil handle, attempts
a fresh connect-and-configure, and on success adopts the fresh handle —
never reusing the failed one. -/
theorem realtime_midstream_failure :
    ∀ (h : Nat) (connectResult : Except Unit Nat),
      openAIReaderStep (some h) (.error ()) = (none, [], false) ∧
      (messageConnectStep (openAIReaderStep (some h) (.error ())).1 connectResult).2.2 = true ∧
      ∀ h2, connectResult = .ok h2 →
        (messageConnectStep (openAIReaderStep (some h) (.error ())).1 connectResult).1 =
          some h2 := by
  intro h cr
  refine ⟨rfl, ?_, ?_⟩
  · cases cr <;> rfl
  · intro h2 hcr
    subst hcr
    rfl

/-- Witness for C8 at concrete handles: failed handle 1, fresh handle 2. -/
theorem realtime_midstream_failure_witness :
    openAIReaderStep (some 1) (.error ()) = (none, [], false) ∧
    (messageConnectStep (openAIReaderStep (some 1) (.error ())).1 (.ok 2)).2.2 = true ∧
    (messageConnectStep (openAIReaderStep (some 1) (.error ())).1 (.ok 2)).1 = some 2 := by
  obtain ⟨a, b, c⟩ := realtime_midstream_failure 1 (.ok 2)
  exact ⟨a, b, c 2 rfl⟩

theorem audioDone_mem_eventFrames (e : RTEvent) (h : SMsg.audioDone ∈ eventFrames e) :
    e = RTEvent.audioDoneEv := by
  cases e <;> simp_all [eventFrames]

theorem audioDone_not_mem_pump (pre : List RTEvent) :
    RTEvent.audioDoneEv ∉ pre → SMsg.audioDone ∉ pumpFrames pre := by
  induction pre with
  | nil =>
    intro _ hmem
    simp [pumpFrames] at hmem
  | cons e es ih =>
    intro hnot hmem
    simp only [pumpFrames, List.mem_append] at hmem
    rcases hmem with h1 | h2
    · have he := audioDone_mem_eventFrames e h1
      subst he
      exact hnot (List.mem_cons_self _ _)
    · exact ih (fun hm => hnot (List.mem_cons_of_mem _ hm)) h2

theorem pumpFrames_append (pre post : List RTEvent) :
    pumpFrames (pre ++ post) = pumpFrames pre ++ pumpFrames post := by
  induction pre with
  | nil => rfl
  | cons e es ih => simp [pumpFrames, ih]

/-- C10: whenever the transcript-done upstream event is processed, the
session emits response_done immediately after text_done; audio_done frames
arise only from the later audio-done upstream event, so the client can
observe response_done while audio deltas of the same exchange are still
arriving. -/
theorem transcript_done_emits_response_done (pre post : List RTEvent) :
    pumpFrames (pre ++ RTEvent.transcriptDone :: post) =
      pumpFrames pre ++ SMsg.textDone :: SMsg.responseDone :: pumpFrames post ∧
    (RTEvent.audioDoneEv ∉ pre → SMsg.audioDone ∉ pumpFrames pre) := by
  constructor
  · rw [pumpFrames_append]
    rfl
  · exact audioDone_not_mem_pump pre

/-- Witness for C10: a concrete event sequence in which the transcript-done
event is followed by further audio activity. -/
theorem transcript_done_emits_response_done_witness :
    pumpFrames [RTEvent.audioDelta "QUJD", RTEvent.transcriptDone, RTEvent.audioDoneEv] =
      pumpFrames [RTEvent.audioDelta "QUJD"] ++ SMsg.textDone :: SMsg.responseDone ::
        pumpFrames [RTEvent.audioDoneEv] ∧
    SMsg.audioDone ∉ pumpFrames [RTEvent.audioDelta "QUJD"] := by
  obtain ⟨h1, h2⟩ :=
    transcript_done_emits_response_done [RTEvent.audioDelta "QUJD"] [RTEvent.audioDoneEv]
  exact ⟨h1, h2 (by decide)⟩

/-- The standard base64 alphabet. -/
def base64Table : List Char :=
  "ABCDEFGHIJKLMNOPQRSTUVWXYZabcdefghijklmnopqrstuvwxyz0123456789+/".toList

/-- encoding/base64 StdEncoding over a byte list, with padding. -/
def base64EncodeL : Bytes → List Char
  | [] => []
  | [a] => [base64Table.getD (a / 4) '=', base64Table.getD (a % 4 * 16) '=', '=', '=']
  | [a, b] => [base64Table.getD (a / 4) '=', base64Table.getD (a % 4 * 16 + b / 16) '=',
      base64Table.getD (b % 16 * 4) '=', '=']
  | a :: b :: c :: rest =>
      base64Table.getD (a / 4) '=' :: base64Table.getD (a % 4 * 16 + b / 16) '=' ::
      base64Table.getD (b % 16 * 4 + c / 64) '=' :: base64Table.getD (c % 64) '=' ::
      base64EncodeL rest

/-- encoding/base64 StdEncoding.EncodeToString. -/
def base64Encode (bs : Bytes) : String := String.mk (base64EncodeL bs)

/-- 4096-byte chunking of the PCM bytes (local pipeline handler lines
236-254). -/
def chunks4096 (l : Bytes) : List Bytes :=
  if _h : l = [] then [] else l.take 4096 :: chunks4096 (l.drop 4096)
termination_by l.length
decreasing_by
  have hpos : 0 < l.length := List.length_pos.mpr _h
  rw [List.length_drop]
  omega

/-- Outcome of the streaming chat-completion call as observed by
StreamLLMResponse (local pipeline handler lines 91-181): the server-sent
event stream yields a sequence of content deltas and either reaches its
end (EOF or the end marker) or fails mid-way (request error, bad status,
read error, or a send failure to the browser). -/
inductive LLMOutcome
  | ok (deltas : List String)
  | fail (deltas : List String)

/-- The nonempty-content test of line 163: only deltas with nonempty
content are forwarded and accumulated. -/
def keepDelta (d : String) : Bool := !(d == "")

/-- StreamLLMResponse: forwards one text_delta per nonempty content delta
the instant it arrives (empty deltas are neither forwarded nor
accumulated — line 163) and returns the concatenated text at stream end,
or the deltas emitted so far plus an error on failure. -/
def StreamLLMResponse : LLMOutcome → List SMsg × Except Unit String
  | .ok ds => ((ds.filter keepDelta).map SMsg.textDelta,
      .ok (String.join (ds.filter keepDelta)))
  | .fail ds => ((ds.filter keepDelta).map SMsg.textDelta, .error ())

/-- Outcome of the blocking TTS HTTP call (lines 187-226). -/
inductive TTSOutcome
  | ok (wav : Bytes)
  | fail

/-- GenerateAndStreamAudio (local pipeline handler lines 184-258): the TTS
call, WAV-to-PCM16 conversion through convertWAVToPCM16, then one
audio_delta frame per 4096-byte base64-encoded chunk.  A TTS or conversion
failure produces no audio frames and an error. -/
def GenerateAndStreamAudio (tts : TTSOutcome) : List SMsg × Except Unit Unit :=
  match tts with
  | .fail => ([], .error ())
  | .ok wav =>
    match convertWAVToPCM16 wav with
    | some (.ok pcm) =>
      ((chunks4096 pcm).map (fun c => SMsg.audioDelta (base64Encode c)), .ok ())
    | _ => ([], .error ())

/-- HandleLocalPipeline (lines 348-376): stream the LLM text, then
text_done, then the audio stage, then audio_done and response_done; a
stage failure aborts the exchange at that stage boundary. -/
def HandleLocalPipeline (llm : LLMOutcome) (tts : String → TTSOutcome) :
    List SMsg × Except Unit Unit :=
  match StreamLLMResponse llm with
  | (frames, .error _) => (frames, .error ())
  | (frames, .ok fullText) =>
    match GenerateAndStreamAudio (tts fullText) with
    | (aframes, .error _) => (frames ++ [SMsg.textDone] ++ aframes, .error ())
    | (aframes, .ok _) =>
      (frames ++ [SMsg.textDone] ++ aframes ++ [SMsg.audioDone, SMsg.responseDone], .ok ())

/-- Recognizer for the frame pattern audio_delta*, audio_done,
response_done. -/
def audioPhase : List SMsg → Bool
  | SMsg.audioDelta _ :: rest => audioPhase rest
  | [SMsg.audioDone, SMsg.responseDone] => true
  | _ => false

/-- Recognizer for the strict success order: text_delta*, text_done,
audio_delta*, audio_done, response_done. -/
def successPattern : List SMsg → Bool
  | SMsg.textDelta _ :: rest => successPattern rest
  | SMsg.textDone :: rest => audioPhase rest
  | _ => false

/-- Recognizer for trailing audio deltas with nothing after them. -/
def audioTail : List SMsg → Bool
  | [] => true
  | SMsg.audioDelta _ :: rest => audioTail rest
  | _ => false

/-- Recognizer for the frame sequences of a failed exchange: the sequence
stops at the failed stage — text_delta* when the text stage failed, or
text_delta*, text_done, audio_delta* when the audio stage failed before
audio_done; no frame of any later stage appears. -/
def failPattern : List SMsg → Bool
  | [] => true
  | SMsg.textDelta _ :: rest => failPattern rest
  | SMsg.textDone :: rest => audioTail rest
  | _ => false

theorem audioPhase_deltas (cs : List Bytes) :
    audioPhase ((cs.map fun c => SMsg.audioDelta (base64Encode c)) ++
      [SMsg.audioDone, SMsg.responseDone]) = true := by
  induction cs with
  | nil => rfl
  | cons c cs ih => simpa [audioPhase] using ih

theorem successPattern_full (ds : List String) (cs : List Bytes) :
    successPattern ((ds.map SMsg.textDelta) ++ SMsg.textDone ::
      ((cs.map fun c => SMsg.audioDelta (base64Encode c)) ++
        [SMsg.audioDone, SMsg.responseDone])) = true := by
  induction ds with
  | nil => simpa [successPattern] using audioPhase_deltas cs
  | cons d ds ih => simpa [successPattern] using ih

theorem failPattern_textOnly (ds : List String) :
    failPattern (ds.map SMsg.textDelta) = true := by
  induction ds with
  | nil => rfl
  | cons d ds ih => simpa [failPattern] using ih

theorem failPattern_textDone (ds : List String) :
    failPattern ((ds.map SMsg.textDelta) ++ [SMsg.textDone]) = true := by
  induction ds with
  | nil => rfl
  | cons d ds ih => simpa [failPattern] using ih

/-- C7: for every local-pipeline exchange, the emitted frame sequence is
exactly text_delta*, text_done, audio_delta*, audio_done, response_done in
that strict order when every stage succeeds; when a stage fails, no frame
of any later stage is emitted for that exchange. -/
theorem local_pipeline_frame_order (llm : LLMOutcome) (tts : String → TTSOutcome) :
    ((HandleLocalPipeline llm tts).2 = .ok () →
      successPattern (HandleLocalPipeline llm tts).1 = true) ∧
    ((HandleLocalPipeline llm tts).2 = .error () →
      failPattern (HandleLocalPipeline llm tts).1 = true) := by
  cases llm with
  | fail ds =>
    constructor
    · intro hok
      simp [HandleLocalPipeline, StreamLLMResponse] at hok
    · intro _
      simpa [HandleLocalPipeline, StreamLLMResponse] using
        failPattern_textOnly (ds.filter keepDelta)
  | ok ds =>
    cases htts : tts (String.join (ds.filter keepDelta)) with
    | fail =>
      constructor
      · intro hok
        simp [HandleLocalPipeline, StreamLLMResponse, GenerateAndStreamAudio, htts] at hok
      · intro _
        simpa [HandleLocalPipeline, StreamLLMResponse, GenerateAndStreamAudio, htts] using
          failPattern_textDone (ds.filter keepDelta)
    | ok wav =>
      rcases hconv : convertWAVToPCM16 wav with _ | r
      · constructor
        · intro hok
          simp [HandleLocalPipeline, StreamLLMResponse, GenerateAndStreamAudio,
            htts, hconv] at hok
        · intro _
          simpa [HandleLocalPipeline, StreamLLMResponse, GenerateAndStreamAudio,
            htts, hconv] using failPattern_textDone (ds.filter keepDelta)
      · cases r with
        | error e =>
          constructor
          · intro hok
            simp [HandleLocalPipeline, StreamLLMResponse, GenerateAndStreamAudio,
              htts, hconv] at hok
          · intro _
            simpa [HandleLocalPipeline, StreamLLMResponse, GenerateAndStreamAudio,
              htts, hconv] using failPattern_textDone (ds.filter keepDelta)
        | ok pcm =>
          constructor
          · intro _
            have h := successPattern_full (ds.filter keepDelta) (chunks4096 pcm)
            simpa [HandleLocalPipeline, StreamLLMResponse, GenerateAndStreamAudio,
              htts, hconv] using h
          · intro herr
            simp [HandleLocalPipeline, StreamLLMResponse, GenerateAndStreamAudio,
              htts, hconv] at herr

theorem convertWAVToPCM16_mkWav_12 :
    convertWAVToPCM16 (mkWav [1, 2]) = some (.ok [1, 2]) := by
  unfold convertWAVToPCM16
  rw [if_neg (by decide),
    slice_eq_of_le _ 0 4 (by decide) (by decide),
    slice_eq_of_le _ 8 12 (by decide) (by decide)]
  dsimp only
  rw [show List.take (4 - 0) (List.drop 0 (mkWav [1, 2])) = riffMagic from rfl,
    if_neg (by simp),
    show List.take (12 - 8) (List.drop 8 (mkWav [1, 2])) = waveMagic from rfl,
    if_neg (by simp), findFmt_mkWav, findData_eq_findDataS, mkWav_drop12]
  rfl

/-- Witness for C7: a concrete successful exchange and a concrete failed
one, each matching its pattern. -/
theorem local_pipeline_frame_order_witness :
    successPattern (HandleLocalPipeline (.ok ["hi"]) (fun _ => .ok (mkWav [1, 2]))).1 = true ∧
    failPattern (HandleLocalPipeline (.fail ["hi"]) (fun _ => .fail)).1 = true := by
  constructor
  · exact (local_pipeline_frame_order (.ok ["hi"]) (fun _ => .ok (mkWav [1, 2]))).1
      (by rw [HandleLocalPipeline]
          dsimp only [StreamLLMResponse]
          rw [GenerateAndStreamAudio]
          rw [convertWAVToPCM16_mkWav_12])
  · exact (local_pipeline_frame_order (.fail ["hi"]) (fun _ => .fail)).2 rfl

end ResumeRelay
